import Mathlib

/-!
Verification of the optimistic scheduling engine of the agenda-assist
repository: the drag-selection state machine (`src/hooks/useDragAndDrop.ts`),
the pending-change accumulator with its merged displayed view
(`displayedEvents` in the calendar context), and the debounced batch
persistence scheduler (`CalendarContext.tsx`).

Conventions of the embedding:
* Grid hours are measured in half-hour units: the source's JavaScript number
  `h` (always a multiple of `0.5`: the grid offers the 48 slots
  `0, 0.5, …, 23.5`) is represented by the integer `2*h`, so hour `10`
  is `20`, hour `10.5` is `21`, and the source's `h += 0.5` loop step
  becomes an integer step of `1`.  On multiples of `0.5` this scaling is an
  exact bijection, so every comparison and equality in the source is
  preserved.  The `duration` field is kept in hours (the constant `3`),
  exactly as the source stores it; the engine only copies it around.
* `Date.now()` is modelled by a natural-number clock carried in the engine
  state and bumped on every committed release, so distinct releases get
  distinct provisional-id timestamps (the source's millisecond clock).
* Reservation identifiers are modelled by an inductive type with one
  constructor per flavour: `durable` for store-issued ids and `temp` for the
  locally generated `temp-${Date.now()}-${day}-${hour}` strings, keeping
  exactly the distinctions the string encoding provides.
-/

namespace AgendaAssist

/-- A reservation identifier: durable (store-issued) or provisional
(`temp-${now}-${day}-${hour}`, from `useDragAndDrop.ts`; the hour component
is in half-hour units). -/
inductive EventId where
  | durable : Nat → EventId
  | temp : Nat → Int → Int → EventId
deriving DecidableEq, Repr

/-- `true` exactly on provisional (`temp-…`) identifiers. -/
def EventId.isTemp : EventId → Bool
  | .durable _ => false
  | .temp _ _ _ => true

/-- `CalendarEvent` from `src/contexts/types.ts`; `startHour` is in
half-hour units, `duration` in hours. -/
structure CalendarEvent where
  id : EventId
  day : Int
  startHour : Int
  duration : Int
  title : String
  player_name : String
deriving DecidableEq, Repr

/-- `PendingChanges` from `src/contexts/types.ts`. -/
structure PendingChanges where
  toCreate : List CalendarEvent
  toDelete : List EventId
deriving DecidableEq, Repr

/-- The ids of a list of events. -/
def idsOf (l : List CalendarEvent) : List EventId := l.map fun e => e.id

/-- The empty batch of pending changes. -/
def PendingChanges.empty : PendingChanges := ⟨[], []⟩

/-! ## The merged displayed view -/

/-- `displayedEvents` (the `useMemo` in the calendar context,
`src/unnamed/part_002` lines 199–214): start from the loaded sessions,
filter out pending deletions when `toDelete` is non-empty, then append the
pending creations when `toCreate` is non-empty. -/
def displayedEvents (sessions : List CalendarEvent)
    (pc : PendingChanges) : List CalendarEvent :=
  let events := sessions
  let events :=
    if 0 < pc.toDelete.length then
      events.filter fun e => decide (e.id ∉ pc.toDelete)
    else events
  if 0 < pc.toCreate.length then events ++ pc.toCreate else events

/-- Modelled from the spec: `displayedView(canonical)` returns `canonical`
with every entry whose id is in `toDelete` removed, followed by every entry
in `toCreate` appended (spec §4.2).  Used to compare the source's
`displayedEvents` against the spec's description. -/
def displayedViewSpec (canonical : List CalendarEvent)
    (pc : PendingChanges) : List CalendarEvent :=
  (canonical.filter fun e => decide (e.id ∉ pc.toDelete)) ++ pc.toCreate

theorem displayedEvents_eq_spec (sessions : List CalendarEvent)
    (pc : PendingChanges) :
    displayedEvents sessions pc = displayedViewSpec sessions pc := by
  unfold displayedEvents displayedViewSpec
  rcases pc with ⟨tc, td⟩
  cases tc with
  | nil =>
      cases td with
      | nil => simp [List.filter_eq_self]
      | cons a l => simp
  | cons b m =>
      cases td with
      | nil => simp [List.filter_eq_self]
      | cons a l => simp

/-- Membership in the displayed view. -/
theorem mem_displayedEvents {sessions : List CalendarEvent}
    {pc : PendingChanges} {e : CalendarEvent} :
    e ∈ displayedEvents sessions pc ↔
      (e ∈ sessions ∧ e.id ∉ pc.toDelete) ∨ e ∈ pc.toCreate := by
  rw [displayedEvents_eq_spec]
  unfold displayedViewSpec
  simp [List.mem_filter]

/-! ## The debounced batch persistence scheduler (`CalendarContext.tsx`) -/

/-- The scheduler-relevant state of `CalendarProvider`
(`CalendarContext.tsx`): the `saveCountdown`/`isSaving`/`showSaved` state
variables together with the three timer refs.  Timers are modelled by the
milliseconds remaining until they fire (`none` = not set). -/
structure Scheduler where
  saveCountdown : Option Nat
  countdownRunning : Bool
  saveTimer : Option Nat
  isSaving : Bool
  showSaved : Bool
  savedTimer : Option Nat
deriving DecidableEq, Repr

/-- Scheduler state on mount: no timers, nothing in flight. -/
def Scheduler.init : Scheduler := ⟨none, false, none, false, false, none⟩

/-- The configured debounce delay (`setTimeout(…, 5000)`). -/
def SAVE_DELAY_MS : Nat := 5000

/-- The configured countdown start (`setSaveCountdown(5)`). -/
def SAVE_COUNTDOWN_START : Nat := 5

/-- `scheduleSave` (`CalendarContext.tsx` lines 192–218): clear the existing
save timer and countdown interval, restart the countdown at 5 and arm the
save timer at the full 5000 ms delay.  `showSaved`/`savedTimer` are not
touched. -/
def scheduleSave (s : Scheduler) : Scheduler :=
  { s with
    saveCountdown := some SAVE_COUNTDOWN_START
    countdownRunning := true
    saveTimer := some SAVE_DELAY_MS }

/-- One firing of the 1-second countdown interval (`CalendarContext.tsx`
lines 203–212): decrement; at zero, pin the display to `0` and clear the
interval. -/
def tickCountdown (s : Scheduler) : Scheduler :=
  if s.countdownRunning then
    match s.saveCountdown with
    | some n =>
        if n ≤ 1 then { s with saveCountdown := some 0, countdownRunning := false }
        else { s with saveCountdown := some (n - 1) }
    | none => s
  else s

/-! ## The persistence procedure (`savePendingChanges`) -/

/-- Outcome of the remote store for one persistence round: whether each
deletion succeeds (failures are only logged) and whether the batched insert
succeeds. -/
structure StoreBehavior where
  deleteOk : EventId → Bool
  insertOk : Bool

/-- Observable result of one run of `savePendingChanges`: the pending
changes afterwards, the scheduler state afterwards, how many canonical
reloads were requested, whether the error state was set, and the requests
issued to the store. -/
structure SaveRun where
  pending : PendingChanges
  sched : Scheduler
  reloads : Nat
  errorSet : Bool
  deletesIssued : List EventId
  insertIssued : List CalendarEvent
deriving Repr

/-- `savePendingChanges` (`CalendarContext.tsx` lines 117–189) as a function
of the current pending changes, the scheduler state and the store's
behaviour.  Mirrors the source: early return when both lists are empty;
otherwise clear countdown and timers and set `isSaving`; issue the deletes
one by one (failures only logged); issue the batched insert when `toCreate`
is non-empty, throwing on failure (caught: error set, nothing cleared, no
reload, no retry); on success clear the pending changes, reload once, show
the `Saved` indicator for 3000 ms; finally `isSaving := false`. -/
def savePendingChanges (pc : PendingChanges) (sch : Scheduler)
    (store : StoreBehavior) : SaveRun :=
  if pc.toCreate.length = 0 ∧ pc.toDelete.length = 0 then
    ⟨pc, sch, 0, false, [], []⟩
  else
    let sch1 : Scheduler :=
      { sch with
        saveCountdown := none
        isSaving := true
        saveTimer := none
        countdownRunning := false }
    let deletesIssued := pc.toDelete
    if 0 < pc.toCreate.length ∧ store.insertOk = false then
      -- the insert failed: catch block sets the error, finally clears isSaving
      ⟨pc, { sch1 with isSaving := false }, 0, true, deletesIssued, pc.toCreate⟩
    else
      -- success: clear pending changes, reload, show the Saved indicator
      ⟨PendingChanges.empty,
        { sch1 with isSaving := false, showSaved := true, savedTimer := some 3000 },
        1, false, deletesIssued, pc.toCreate⟩

/-! ## Reconciliation with external change notifications -/

/-- The view-mode switch of the calendar context. -/
inductive ViewMode where
  | all
  | personal
deriving DecidableEq, Repr

/-- The filter `loadSessions` applies (`CalendarContext.tsx` lines 86–91):
in personal mode with a non-empty player name, filter by that name. -/
def loadFilter (vm : ViewMode) (playerName : String) : Option String :=
  if vm = ViewMode.personal ∧ playerName ≠ "" then some playerName else none

/-- Result of one realtime notification: how many reloads were triggered
and, for each, the filter used. -/
structure RealtimeResult where
  reloads : List (Option String)
deriving DecidableEq, Repr

/-- The realtime subscription callback (`CalendarContext.tsx` lines
226–248): on any change event, reload under the current filter unless a
save is in flight. -/
def handleRealtimeEvent (isSaving : Bool) (vm : ViewMode)
    (playerName : String) : RealtimeResult :=
  if isSaving then ⟨[]⟩ else ⟨[loadFilter vm playerName]⟩

/-! ## The drag-selection state machine (`useDragAndDrop.ts`) -/

/-- `DragPosition` from `useDragAndDrop.ts` (hour in half-hour units). -/
structure DragPosition where
  day : Int
  hour : Int
deriving DecidableEq, Repr

/-- The state the drag hook and its collaborators close over: the drag
state proper, the pending-change accumulator, the scheduler, and the
modelled `Date.now()` clock. -/
structure EngineState where
  isDragging : Bool
  dragStart : Option DragPosition
  dragEnd : Option DragPosition
  pending : PendingChanges
  sched : Scheduler
  clock : Nat
deriving DecidableEq, Repr

/-- The engine state on mount. -/
def EngineState.init : EngineState :=
  ⟨false, none, none, PendingChanges.empty, Scheduler.init, 0⟩

/-- `SESSION_DURATION = 3` (hours), `CalendarContext.tsx` line 78. -/
def SESSION_DURATION : Int := 3

/-- The (localized) title every synthesized reservation carries,
`t('session.title')`. -/
def sessionTitle : String := "session.title"

/-- JavaScript's `String.prototype.trim`: strip whitespace from both ends
(modelled over the character list). -/
def jsTrim (s : String) : List Char :=
  ((s.data.dropWhile fun c => c.isWhitespace).reverse.dropWhile
    fun c => c.isWhitespace).reverse

/-- `handleMouseDown` (`useDragAndDrop.ts` lines 49–61): rejected when the
trimmed player name is shorter than 3 (`playerName.trim().length < 3`);
otherwise start a drag anchored at the cell. -/
def handleMouseDown (playerName : String) (day hour : Int)
    (s : EngineState) : EngineState :=
  if (jsTrim playerName).length < 3 then s
  else
    { s with
      isDragging := true
      dragStart := some ⟨day, hour⟩
      dragEnd := some ⟨day, hour⟩ }

/-- `handleMouseEnter` (`useDragAndDrop.ts` lines 63–70): while a drag is
active, move the cursor cell. -/
def handleMouseEnter (day hour : Int) (s : EngineState) : EngineState :=
  if s.isDragging ∧ s.dragStart.isSome then
    { s with dragEnd := some ⟨day, hour⟩ }
  else s

/-- A freshly synthesized reservation (`useDragAndDrop.ts` lines 95–102 and
141–148): provisional id from the clock and the cell, fixed duration, owned
by the acting player. -/
def newEvent (playerName : String) (now : Nat) (d h : Int) : CalendarEvent :=
  { id := EventId.temp now d h
    day := d
    startHour := h
    duration := SESSION_DURATION
    title := sessionTitle
    player_name := playerName }

/-- The integer range `[lo, hi]` (empty when `hi < lo`).  The source's
`for (let d = startDay; d <= endDay; d++)` loop, and — in half-hour
units — its `for (let h = startHour; h <= endHour; h += 0.5)` loop. -/
def intRange (lo hi : Int) : List Int :=
  (List.range (hi - lo + 1).toNat).map fun i : Nat => lo + (i : Int)

/-- The reservations synthesized by the create-mode drag loop
(`useDragAndDrop.ts` lines 135–150): one per day in `[d0,d1]` and half-hour
slot in `[h0,h1]`, outer loop on days. -/
def rectEvents (playerName : String) (now : Nat) (d0 d1 h0 h1 : Int) :
    List CalendarEvent :=
  (intRange d0 d1).flatMap fun d =>
    (intRange h0 h1).map fun h => newEvent playerName now d h

/-- The `events.find(…)` predicate of `handleMouseUp` (`useDragAndDrop.ts`
lines 77–82): a reservation of the acting player sitting at the anchor
cell. -/
def isStartMatch (playerName : String) (ds : DragPosition)
    (e : CalendarEvent) : Bool :=
  decide (e.day = ds.day ∧ e.startHour = ds.hour ∧ e.player_name = playerName)

/-- The `events.filter(…)` predicate of delete mode (`useDragAndDrop.ts`
lines 118–124): owned by the acting player with `(day, startHour)` inside
the inclusive rectangle. -/
def inRectOwned (playerName : String) (d0 d1 h0 h1 : Int)
    (e : CalendarEvent) : Bool :=
  decide (d0 ≤ e.day ∧ e.day ≤ d1 ∧ h0 ≤ e.startHour ∧ e.startHour ≤ h1 ∧
    e.player_name = playerName)

/-- The pending-change update performed by `handleMouseUp`
(`useDragAndDrop.ts` lines 72–161) when a drag is active, as a function of
the pending changes, the clock and the anchor/cursor cells.  Mirrors the
source: find the current player's reservation at the anchor; branch on
click vs drag; delete mode removes ids from `toCreate` and appends them to
`toDelete`; create mode appends synthesized reservations to `toCreate`. -/
def releasePending (playerName : String) (sessions : List CalendarEvent)
    (pc : PendingChanges) (now : Nat) (ds de : DragPosition) :
    PendingChanges :=
  let events := displayedEvents sessions pc
  let startingEvent := events.find? (isStartMatch playerName ds)
  if ds.day = de.day ∧ ds.hour = de.hour then
    match startingEvent with
    | some ev =>
        { toDelete := pc.toDelete ++ [ev.id]
          toCreate := pc.toCreate.filter fun e => decide (e.id ≠ ev.id) }
    | none =>
        { pc with
          toCreate := pc.toCreate ++ [newEvent playerName now ds.day ds.hour] }
  else
    let startDay := min ds.day de.day
    let endDay := max ds.day de.day
    let startHour := min ds.hour de.hour
    let endHour := max ds.hour de.hour
    match startingEvent with
    | some _ =>
        let eventsToDelete :=
          events.filter (inRectOwned playerName startDay endDay startHour endHour)
        { toDelete := pc.toDelete ++ idsOf eventsToDelete
          toCreate := pc.toCreate.filter fun e =>
            decide (e.id ∉ idsOf eventsToDelete) }
    | none =>
        { pc with
          toCreate := pc.toCreate ++
            rectEvents playerName now startDay endDay startHour endHour }

/-- `handleMouseUp` (`useDragAndDrop.ts` lines 72–176): when a drag is
active, commit the selection through `releasePending` and call
`scheduleSave`; always clear the drag state.  The clock advances on a
committed release (time passes between distinct `Date.now()` reads). -/
def handleMouseUp (playerName : String) (sessions : List CalendarEvent)
    (s : EngineState) : EngineState :=
  match s.isDragging, s.dragStart, s.dragEnd with
  | true, some ds, some de =>
      { isDragging := false
        dragStart := none
        dragEnd := none
        pending := releasePending playerName sessions s.pending s.clock ds de
        sched := scheduleSave s.sched
        clock := s.clock + 1 }
  | _, _, _ =>
      { s with isDragging := false, dragStart := none, dragEnd := none }

/-! ## Reachability

One step of the engine: the pointer events the grid surface can deliver.
`WeekCalendar.tsx` wires both `onMouseUp` and `onMouseLeave` (the spec's
`cancel()`) to the same `handleMouseUp` handler, so both appear here as
that function. -/

inductive Step (playerName : String) (sessions : List CalendarEvent) :
    EngineState → EngineState → Prop
  | press (d h : Int) (s : EngineState) :
      Step playerName sessions s (handleMouseDown playerName d h s)
  | enter (d h : Int) (s : EngineState) :
      Step playerName sessions s (handleMouseEnter d h s)
  | release (s : EngineState) :
      Step playerName sessions s (handleMouseUp playerName sessions s)
  | cancel (s : EngineState) :
      Step playerName sessions s (handleMouseUp playerName sessions s)

/-- States reachable from the initial engine state by pointer events. -/
def Reachable (playerName : String) (sessions : List CalendarEvent)
    (s : EngineState) : Prop :=
  Relation.ReflTransGen (Step playerName sessions) EngineState.init s

/-! ## Case equations for `releasePending` -/

theorem releasePending_click_delete {pn : String} {ss : List CalendarEvent}
    {pc : PendingChanges} {now : Nat} {ds de : DragPosition}
    {ev : CalendarEvent}
    (hfind : (displayedEvents ss pc).find? (isStartMatch pn ds) = some ev)
    (hsame : ds.day = de.day ∧ ds.hour = de.hour) :
    releasePending pn ss pc now ds de =
      ⟨pc.toCreate.filter fun e => decide (e.id ≠ ev.id),
        pc.toDelete ++ [ev.id]⟩ := by
  simp [releasePending, hfind, hsame]

theorem releasePending_click_create {pn : String} {ss : List CalendarEvent}
    {pc : PendingChanges} {now : Nat} {ds de : DragPosition}
    (hfind : (displayedEvents ss pc).find? (isStartMatch pn ds) = none)
    (hsame : ds.day = de.day ∧ ds.hour = de.hour) :
    releasePending pn ss pc now ds de =
      ⟨pc.toCreate ++ [newEvent pn now ds.day ds.hour], pc.toDelete⟩ := by
  simp [releasePending, hfind, hsame]

theorem releasePending_drag_delete {pn : String} {ss : List CalendarEvent}
    {pc : PendingChanges} {now : Nat} {ds de : DragPosition}
    {ev : CalendarEvent}
    (hfind : (displayedEvents ss pc).find? (isStartMatch pn ds) = some ev)
    (hsame : ¬(ds.day = de.day ∧ ds.hour = de.hour)) :
    releasePending pn ss pc now ds de =
      { toDelete := pc.toDelete ++
          idsOf ((displayedEvents ss pc).filter
            (inRectOwned pn (min ds.day de.day) (max ds.day de.day)
              (min ds.hour de.hour) (max ds.hour de.hour)))
        toCreate := pc.toCreate.filter fun e =>
          decide (e.id ∉ idsOf ((displayedEvents ss pc).filter
            (inRectOwned pn (min ds.day de.day) (max ds.day de.day)
              (min ds.hour de.hour) (max ds.hour de.hour)))) } := by
  simp [releasePending, hfind, hsame]

theorem releasePending_drag_create {pn : String} {ss : List CalendarEvent}
    {pc : PendingChanges} {now : Nat} {ds de : DragPosition}
    (hfind : (displayedEvents ss pc).find? (isStartMatch pn ds) = none)
    (hsame : ¬(ds.day = de.day ∧ ds.hour = de.hour)) :
    releasePending pn ss pc now ds de =
      ⟨pc.toCreate ++ rectEvents pn now (min ds.day de.day) (max ds.day de.day)
          (min ds.hour de.hour) (max ds.hour de.hour),
        pc.toDelete⟩ := by
  simp [releasePending, hfind, hsame]

/-- The degenerate integer range. -/
theorem intRange_self (a : Int) : intRange a a = [a] := by
  have h1 : (a - a + 1).toNat = 1 := by omega
  have h2 : List.range 1 = [0] := rfl
  simp [intRange, h1, h2]

/-- A single-cell rectangle synthesizes exactly the one reservation the
click path builds. -/
theorem rectEvents_self (pn : String) (now : Nat) (d h : Int) :
    rectEvents pn now d d h h = [newEvent pn now d h] := by
  simp [rectEvents, intRange_self]

/-! ## Invariants of the pending-change accumulator -/

/-- Provisional timestamps of `id` are below `n` (durable ids vacuously). -/
def EventId.tsLT : EventId → Nat → Prop
  | .durable _, _ => True
  | .temp ts _ _, n => ts < n

/-- `id` is provisional with timestamp below `n`. -/
def EventId.tempBefore : EventId → Nat → Prop
  | .durable _, _ => False
  | .temp ts _ _, n => ts < n

theorem EventId.tempBefore_isTemp {id : EventId} {n : Nat}
    (h : id.tempBefore n) : id.isTemp = true := by
  cases id <;> simp [EventId.tempBefore, EventId.isTemp] at h ⊢

theorem EventId.tempBefore_tsLT {id : EventId} {n : Nat}
    (h : id.tempBefore n) : id.tsLT n := by
  cases id <;> simp_all [EventId.tempBefore, EventId.tsLT]

theorem EventId.tsLT_mono {id : EventId} {m n : Nat}
    (h : id.tsLT m) (hmn : m ≤ n) : id.tsLT n := by
  cases id
  · simp_all [EventId.tsLT]
  · simp_all [EventId.tsLT]
    omega

theorem EventId.tempBefore_mono {id : EventId} {m n : Nat}
    (h : id.tempBefore m) (hmn : m ≤ n) : id.tempBefore n := by
  cases id
  · simp_all [EventId.tempBefore]
  · simp_all [EventId.tempBefore]
    omega

/-- The accumulator invariant, relative to the provisional-id clock:
`toDelete` and `toCreate` carry no common id, ids are duplicate-free on
both sides, every pending creation is provisional with a timestamp in the
past, and every pending deletion's timestamp (if provisional) is in the
past. -/
structure InvP (pc : PendingChanges) (c : Nat) : Prop where
  disj : ∀ id ∈ pc.toDelete, id ∉ idsOf pc.toCreate
  ndCreate : (idsOf pc.toCreate).Nodup
  ndDelete : pc.toDelete.Nodup
  freshCreate : ∀ e ∈ pc.toCreate, e.id.tempBefore c
  boundDelete : ∀ id ∈ pc.toDelete, id.tsLT c

/-- Canonical sessions carry store-issued ids: durable and pairwise
distinct (spec §3: durable ids are issued by the store). -/
structure GoodSessions (sessions : List CalendarEvent) : Prop where
  nd : (idsOf sessions).Nodup
  stored : ∀ e ∈ sessions, e.id.isTemp = false

theorem idsOf_append (a b : List CalendarEvent) :
    idsOf (a ++ b) = idsOf a ++ idsOf b := by
  simp [idsOf]

theorem mem_idsOf {l : List CalendarEvent} {id : EventId} :
    id ∈ idsOf l ↔ ∃ e ∈ l, e.id = id := by
  simp [idsOf]

theorem invP_empty (c : Nat) : InvP PendingChanges.empty c := by
  constructor <;> simp [PendingChanges.empty, idsOf]

theorem InvP.mono {pc : PendingChanges} {c c' : Nat} (h : InvP pc c)
    (hcc : c ≤ c') : InvP pc c' :=
  ⟨h.disj, h.ndCreate, h.ndDelete,
    fun e he => EventId.tempBefore_mono (h.freshCreate e he) hcc,
    fun id hid => EventId.tsLT_mono (h.boundDelete id hid) hcc⟩

/-- Under the invariant, the displayed view has duplicate-free ids. -/
theorem idsOf_displayed_nodup {ss : List CalendarEvent}
    {pc : PendingChanges} {c : Nat} (hss : GoodSessions ss)
    (h : InvP pc c) : (idsOf (displayedEvents ss pc)).Nodup := by
  rw [displayedEvents_eq_spec]
  unfold displayedViewSpec
  rw [idsOf_append, List.nodup_append]
  refine ⟨List.Nodup.sublist (List.Sublist.map _ (List.filter_sublist _)) hss.nd,
    h.ndCreate, ?_⟩
  intro id hid1 hid2
  rcases mem_idsOf.mp hid1 with ⟨e, he, rfl⟩
  rcases mem_idsOf.mp hid2 with ⟨e2, he2, heq⟩
  have h1 : e.id.isTemp = false :=
    hss.stored e (List.mem_of_mem_filter he)
  have h2 : e2.id.isTemp = true :=
    EventId.tempBefore_isTemp (h.freshCreate e2 he2)
  rw [heq] at h2
  rw [h1] at h2
  exact Bool.false_ne_true h2

/-- Under the invariant, a displayed reservation is not pending
deletion. -/
theorem mem_displayed_not_toDelete {ss : List CalendarEvent}
    {pc : PendingChanges} {c : Nat} (h : InvP pc c) {e : CalendarEvent}
    (he : e ∈ displayedEvents ss pc) : e.id ∉ pc.toDelete := by
  rcases mem_displayedEvents.mp he with ⟨_, hnd⟩ | hc
  · exact hnd
  · intro hd
    exact h.disj _ hd (mem_idsOf.mpr ⟨e, hc, rfl⟩)

/-- Under the invariant, a displayed reservation's id has its timestamp in
the past. -/
theorem mem_displayed_tsLT {ss : List CalendarEvent} {pc : PendingChanges}
    {c : Nat} (hss : GoodSessions ss) (h : InvP pc c) {e : CalendarEvent}
    (he : e ∈ displayedEvents ss pc) : e.id.tsLT c := by
  rcases mem_displayedEvents.mp he with ⟨hs, _⟩ | hc
  · have hd := hss.stored e hs
    cases hid : e.id with
    | durable n => simp [EventId.tsLT]
    | temp ts d hr => rw [hid] at hd; simp [EventId.isTemp] at hd
  · exact EventId.tempBefore_tsLT (h.freshCreate e hc)

/-- Queuing any sublist of the displayed view for deletion preserves the
invariant (the shape of both delete branches of `handleMouseUp`). -/
theorem invP_deleteBatch {ss : List CalendarEvent} {pc : PendingChanges}
    {c : Nat} (hss : GoodSessions ss) (h : InvP pc c)
    {batch : List CalendarEvent}
    (hb : batch.Sublist (displayedEvents ss pc)) :
    InvP ⟨pc.toCreate.filter fun e => decide (e.id ∉ idsOf batch),
          pc.toDelete ++ idsOf batch⟩ (c + 1) := by
  constructor
  · intro id hid hmem
    rcases mem_idsOf.mp hmem with ⟨e, he, rfl⟩
    rw [List.mem_filter] at he
    obtain ⟨heC, hdec⟩ := he
    rw [decide_eq_true_eq] at hdec
    rcases List.mem_append.mp hid with hold | hbatch
    · exact h.disj _ hold (mem_idsOf.mpr ⟨e, heC, rfl⟩)
    · exact hdec hbatch
  · exact List.Nodup.sublist (List.Sublist.map _ (List.filter_sublist _))
      h.ndCreate
  · rw [List.nodup_append]
    refine ⟨h.ndDelete,
      List.Nodup.sublist (List.Sublist.map _ hb)
        (idsOf_displayed_nodup hss h), ?_⟩
    intro id hid hidb
    rcases mem_idsOf.mp hidb with ⟨e, he, rfl⟩
    exact mem_displayed_not_toDelete h (hb.subset he) hid
  · intro e he
    exact EventId.tempBefore_mono
      (h.freshCreate e (List.mem_of_mem_filter he)) (Nat.le_succ c)
  · intro id hid
    rcases List.mem_append.mp hid with hold | hbatch
    · exact EventId.tsLT_mono (h.boundDelete _ hold) (Nat.le_succ c)
    · rcases mem_idsOf.mp hbatch with ⟨e, he, rfl⟩
      exact EventId.tsLT_mono (mem_displayed_tsLT hss h (hb.subset he))
        (Nat.le_succ c)

/-- The single-click delete branch preserves the invariant. -/
theorem invP_singleDelete {ss : List CalendarEvent} {pc : PendingChanges}
    {c : Nat} (hss : GoodSessions ss) (h : InvP pc c) {ev : CalendarEvent}
    (hev : ev ∈ displayedEvents ss pc) :
    InvP ⟨pc.toCreate.filter fun e => decide (e.id ≠ ev.id),
          pc.toDelete ++ [ev.id]⟩ (c + 1) := by
  have h1 := invP_deleteBatch hss h (List.singleton_sublist.mpr hev)
  have h2 : (pc.toCreate.filter fun e => decide (e.id ≠ ev.id))
      = pc.toCreate.filter fun e => decide (e.id ∉ idsOf [ev]) := by
    apply List.filter_congr
    intro e _
    rw [decide_eq_decide]
    simp [idsOf]
  rw [h2]
  exact h1

/-- Appending duplicate-free, just-now-stamped provisional reservations to
`toCreate` preserves the invariant (the shape of both create branches). -/
theorem invP_createBatch {pc : PendingChanges} {c : Nat} (h : InvP pc c)
    {new : List CalendarEvent} (hn1 : (idsOf new).Nodup)
    (hn2 : ∀ e ∈ new, ∃ d hr, e.id = EventId.temp c d hr) :
    InvP ⟨pc.toCreate ++ new, pc.toDelete⟩ (c + 1) := by
  constructor
  · intro id hid hmem
    rw [idsOf_append, List.mem_append] at hmem
    rcases hmem with hold | hnew
    · exact h.disj _ hid hold
    · rcases mem_idsOf.mp hnew with ⟨e, he, rfl⟩
      rcases hn2 e he with ⟨d, hr, heq⟩
      have hb := h.boundDelete _ hid
      rw [heq] at hb
      simp [EventId.tsLT] at hb
  · rw [idsOf_append, List.nodup_append]
    refine ⟨h.ndCreate, hn1, ?_⟩
    intro id hidO hidN
    rcases mem_idsOf.mp hidO with ⟨e, he, rfl⟩
    rcases mem_idsOf.mp hidN with ⟨e2, he2, heq⟩
    rcases hn2 e2 he2 with ⟨d, hr, h2⟩
    have hf := h.freshCreate e he
    rw [← heq, h2] at hf
    simp [EventId.tempBefore] at hf
  · exact h.ndDelete
  · intro e he
    rcases List.mem_append.mp he with hold | hnew
    · exact EventId.tempBefore_mono (h.freshCreate e hold) (Nat.le_succ c)
    · rcases hn2 e hnew with ⟨d, hr, heq⟩
      rw [heq]
      simp [EventId.tempBefore]
  · intro id hid
    exact EventId.tsLT_mono (h.boundDelete _ hid) (Nat.le_succ c)

/-! ## The synthesized rectangle -/

theorem mem_intRange {lo hi x : Int} :
    x ∈ intRange lo hi ↔ lo ≤ x ∧ x ≤ hi := by
  unfold intRange
  simp only [List.mem_map, List.mem_range]
  constructor
  · rintro ⟨i, hilt, rfl⟩
    omega
  · rintro ⟨h1, h2⟩
    exact ⟨(x - lo).toNat, by omega, by omega⟩

theorem intRange_nodup (lo hi : Int) : (intRange lo hi).Nodup := by
  unfold intRange
  exact List.Nodup.map (fun a b hab => by omega) (List.nodup_range _)

theorem mem_rectEvents {pn : String} {now : Nat} {d0 d1 h0 h1 : Int}
    {e : CalendarEvent} :
    e ∈ rectEvents pn now d0 d1 h0 h1 ↔
      ∃ d hr, (d0 ≤ d ∧ d ≤ d1) ∧ (h0 ≤ hr ∧ hr ≤ h1) ∧
        e = newEvent pn now d hr := by
  simp only [rectEvents, List.mem_flatMap, List.mem_map, mem_intRange]
  constructor
  · rintro ⟨d, hd, hr, hh, rfl⟩
    exact ⟨d, hr, hd, hh, rfl⟩
  · rintro ⟨d, hr, hd, hh, rfl⟩
    exact ⟨d, hd, hr, hh, rfl⟩

theorem rectEvents_ids_nodup (pn : String) (now : Nat) (d0 d1 h0 h1 : Int) :
    (idsOf (rectEvents pn now d0 d1 h0 h1)).Nodup := by
  have hrw : idsOf (rectEvents pn now d0 d1 h0 h1)
      = (intRange d0 d1).flatMap fun d =>
          (intRange h0 h1).map fun h => EventId.temp now d h := by
    simp only [rectEvents, idsOf, List.map_flatMap, List.map_map]
    rfl
  rw [hrw, List.nodup_flatMap]
  constructor
  · intro d _
    exact List.Nodup.map (fun a b hab => by simpa using hab)
      (intRange_nodup _ _)
  · refine List.Pairwise.imp ?_ (intRange_nodup d0 d1)
    intro a b hab x hxa hxb
    simp only [List.mem_map] at hxa hxb
    rcases hxa with ⟨ha, _, rfl⟩
    rcases hxb with ⟨hb, _, heq⟩
    simp only [EventId.temp.injEq] at heq
    exact hab heq.2.1.symm

theorem rectEvents_fresh (pn : String) (now : Nat) (d0 d1 h0 h1 : Int) :
    ∀ e ∈ rectEvents pn now d0 d1 h0 h1,
      ∃ d hr, e.id = EventId.temp now d hr := by
  intro e he
  rcases mem_rectEvents.mp he with ⟨d, hr, _, _, rfl⟩
  exact ⟨d, hr, rfl⟩

/-! ## The invariant is preserved by every engine operation -/

theorem invP_releasePending (pn : String) {ss : List CalendarEvent}
    {pc : PendingChanges} {c : Nat} (hss : GoodSessions ss) (h : InvP pc c)
    (ds de : DragPosition) :
    InvP (releasePending pn ss pc c ds de) (c + 1) := by
  by_cases hsame : ds.day = de.day ∧ ds.hour = de.hour
  · cases hfind : (displayedEvents ss pc).find? (isStartMatch pn ds) with
    | some ev =>
        rw [releasePending_click_delete hfind hsame]
        exact invP_singleDelete hss h (List.mem_of_find?_eq_some hfind)
    | none =>
        rw [releasePending_click_create hfind hsame]
        refine invP_createBatch h ?_ ?_
        · simp [idsOf, newEvent]
        · intro e he
          simp only [List.mem_singleton] at he
          subst he
          exact ⟨ds.day, ds.hour, rfl⟩
  · cases hfind : (displayedEvents ss pc).find? (isStartMatch pn ds) with
    | some ev =>
        rw [releasePending_drag_delete hfind hsame]
        exact invP_deleteBatch hss h (List.filter_sublist _)
    | none =>
        rw [releasePending_drag_create hfind hsame]
        exact invP_createBatch h (rectEvents_ids_nodup _ _ _ _ _ _)
          (rectEvents_fresh _ _ _ _ _ _)

/-- The engine invariant: the accumulator invariant at the current
clock. -/
def Inv (s : EngineState) : Prop := InvP s.pending s.clock

theorem inv_init : Inv EngineState.init :=
  invP_empty 0

theorem inv_handleMouseDown {pn : String} {d h : Int} {s : EngineState}
    (hs : Inv s) : Inv (handleMouseDown pn d h s) := by
  unfold handleMouseDown
  split <;> exact hs

theorem inv_handleMouseEnter {d h : Int} {s : EngineState} (hs : Inv s) :
    Inv (handleMouseEnter d h s) := by
  unfold handleMouseEnter
  split <;> exact hs

theorem inv_handleMouseUp {pn : String} {ss : List CalendarEvent}
    {s : EngineState} (hss : GoodSessions ss) (hs : Inv s) :
    Inv (handleMouseUp pn ss s) := by
  unfold handleMouseUp
  rcases s with ⟨drag, dstart, dend, pc, sch, c⟩
  cases drag with
  | false => exact hs
  | true =>
      cases dstart with
      | none => exact hs
      | some ds =>
          cases dend with
          | none => exact hs
          | some de => exact invP_releasePending pn hss hs ds de

theorem inv_step {pn : String} {ss : List CalendarEvent}
    {s s' : EngineState} (hss : GoodSessions ss) (hstep : Step pn ss s s')
    (hs : Inv s) : Inv s' := by
  cases hstep with
  | press d h s => exact inv_handleMouseDown hs
  | enter d h s => exact inv_handleMouseEnter hs
  | release s => exact inv_handleMouseUp hss hs
  | cancel s => exact inv_handleMouseUp hss hs

/-- Every reachable engine state satisfies the accumulator invariant. -/
theorem inv_reachable {pn : String} {ss : List CalendarEvent}
    {s : EngineState} (hss : GoodSessions ss)
    (hr : Reachable pn ss s) : Inv s := by
  induction hr with
  | refl => exact inv_init
  | tail _ hstep ih => exact inv_step hss hstep ih

/-! ## Shape of `handleMouseUp` -/

theorem handleMouseUp_active {pn : String} {ss : List CalendarEvent}
    {s : EngineState} {ds de : DragPosition} (h1 : s.isDragging = true)
    (h2 : s.dragStart = some ds) (h3 : s.dragEnd = some de) :
    handleMouseUp pn ss s =
      ⟨false, none, none, releasePending pn ss s.pending s.clock ds de,
        scheduleSave s.sched, s.clock + 1⟩ := by
  rcases s with ⟨drag, dst, dnd, pc, sch, c⟩
  simp only at h1 h2 h3
  subst h1
  subst h2
  subst h3
  rfl

theorem handleMouseUp_inactive {pn : String} {ss : List CalendarEvent}
    {s : EngineState}
    (h : s.isDragging = false ∨ s.dragStart = none ∨ s.dragEnd = none) :
    handleMouseUp pn ss s =
      { s with isDragging := false, dragStart := none, dragEnd := none } := by
  rcases s with ⟨drag, dst, dnd, pc, sch, c⟩
  cases drag with
  | false => rfl
  | true =>
      cases dst with
      | none => rfl
      | some ds =>
          cases dnd with
          | none => rfl
          | some de => simp at h

/-! ## Demonstration traces (used as witnesses and counterexamples) -/

/-- Click-create at `(0, 20)` (hour 10): one provisional reservation. -/
def demoS1 : EngineState :=
  handleMouseUp "Alice" [] (handleMouseDown "Alice" 0 20 EngineState.init)

/-- Then click-delete the same cell: the provisional reservation is
"deleted" before ever being persisted. -/
def demoS2 : EngineState :=
  handleMouseUp "Alice" [] (handleMouseDown "Alice" 0 20 demoS1)

theorem demoS1_reachable : Reachable "Alice" [] demoS1 :=
  Relation.ReflTransGen.tail
    (Relation.ReflTransGen.tail Relation.ReflTransGen.refl
      (Step.press 0 20 EngineState.init))
    (Step.release (handleMouseDown "Alice" 0 20 EngineState.init))

theorem demoS2_reachable : Reachable "Alice" [] demoS2 :=
  Relation.ReflTransGen.tail
    (Relation.ReflTransGen.tail demoS1_reachable (Step.press 0 20 demoS1))
    (Step.release (handleMouseDown "Alice" 0 20 demoS1))

theorem goodSessions_nil : GoodSessions [] := by
  constructor <;> simp [idsOf]

/-! ## Claims -/

/-- C2 (counterexample): for a `PendingChanges` value whose `toCreate`
carries an id that is also in `toDelete`, the displayed view does contain
an id that is in `toDelete` — the universally quantified claim fails,
because only the canonical part is filtered. -/
theorem displayedView_contains_deleted_id :
    (⟨EventId.durable 7, 0, 20, 3, "s", "Bob"⟩ : CalendarEvent) ∈
      displayedEvents []
        ⟨[⟨EventId.durable 7, 0, 20, 3, "s", "Bob"⟩], [EventId.durable 7]⟩ ∧
    EventId.durable 7 ∈
      (⟨[⟨EventId.durable 7, 0, 20, 3, "s", "Bob"⟩],
        [EventId.durable 7]⟩ : PendingChanges).toDelete := by
  constructor <;> decide

/-- C2 (amended): for every canonical list and every `PendingChanges`, the
displayed view equals the canonical list with `toDelete` ids removed
followed by `toCreate` appended, and contains every entry of `toCreate`;
it contains no id of `toDelete` provided no `toCreate` entry carries an id
in `toDelete` (the accumulator invariant). -/
theorem displayedView_characterization :
    (∀ ss pc, displayedEvents ss pc = displayedViewSpec ss pc) ∧
    (∀ ss pc e, e ∈ pc.toCreate → e ∈ displayedEvents ss pc) ∧
    (∀ ss pc, (∀ e ∈ pc.toCreate, e.id ∉ pc.toDelete) →
      ∀ e ∈ displayedEvents ss pc, e.id ∉ pc.toDelete) := by
  refine ⟨displayedEvents_eq_spec, ?_, ?_⟩
  · intro ss pc e he
    exact mem_displayedEvents.mpr (Or.inr he)
  · intro ss pc hdisj e he
    rcases mem_displayedEvents.mp he with ⟨_, h⟩ | hc
    · exact h
    · exact hdisj e hc

/-- Witness for the amended C2 at concrete inputs. -/
theorem displayedView_characterization_witness :
    (⟨EventId.temp 0 0 20, 0, 20, 3, "t", "A"⟩ : CalendarEvent).id ∉
      ([EventId.durable 9] : List EventId) :=
  displayedView_characterization.2.2 []
    ⟨[⟨EventId.temp 0 0 20, 0, 20, 3, "t", "A"⟩], [EventId.durable 9]⟩
    (by decide)
    ⟨EventId.temp 0 0 20, 0, 20, 3, "t", "A"⟩ (by decide)

/-- C3 (confirmed): when the create step of the persistence procedure
fails, the pending changes are exactly as before the attempt, no reload is
requested, the error is surfaced, no timer is armed (no retry), and the
scheduler leaves `Saving` for `Idle` (`isSaving` false, countdown and save
timer cleared, `showSaved`/`savedTimer` untouched). -/
theorem createFailure_preserves_pending (pc : PendingChanges)
    (sch : Scheduler) (store : StoreBehavior) (hne : pc.toCreate ≠ [])
    (hfail : store.insertOk = false) :
    (savePendingChanges pc sch store).pending = pc ∧
    (savePendingChanges pc sch store).reloads = 0 ∧
    (savePendingChanges pc sch store).errorSet = true ∧
    (savePendingChanges pc sch store).sched.isSaving = false ∧
    (savePendingChanges pc sch store).sched.saveTimer = none ∧
    (savePendingChanges pc sch store).sched.countdownRunning = false ∧
    (savePendingChanges pc sch store).sched.saveCountdown = none ∧
    (savePendingChanges pc sch store).sched.showSaved = sch.showSaved ∧
    (savePendingChanges pc sch store).sched.savedTimer = sch.savedTimer := by
  have h0 : ¬(pc.toCreate.length = 0 ∧ pc.toDelete.length = 0) := by
    rintro ⟨h1, _⟩
    exact hne (List.length_eq_zero.mp h1)
  have h1 : 0 < pc.toCreate.length := by
    cases hc : pc.toCreate with
    | nil => exact absurd hc hne
    | cons a l => simp
  simp [savePendingChanges, h0, h1, hfail, hne]

/-- Witness for C3 at a concrete failing store. -/
theorem createFailure_preserves_pending_witness :
    (savePendingChanges
        ⟨[⟨EventId.temp 0 0 20, 0, 20, 3, "t", "A"⟩], []⟩ Scheduler.init
        ⟨fun _ => true, false⟩).pending =
      ⟨[⟨EventId.temp 0 0 20, 0, 20, 3, "t", "A"⟩], []⟩ ∧
    (savePendingChanges
        ⟨[⟨EventId.temp 0 0 20, 0, 20, 3, "t", "A"⟩], []⟩ Scheduler.init
        ⟨fun _ => true, false⟩).reloads = 0 :=
  ⟨(createFailure_preserves_pending _ _ _ (by decide) rfl).1,
    (createFailure_preserves_pending _ _ _ (by decide) rfl).2.1⟩

/-- C7 (confirmed): a realtime change notification arriving while a save is
in flight triggers no reload; arriving otherwise, it triggers exactly one
reload, under the currently active filter (the player name exactly when the
view mode is personal and the name is non-empty). -/
theorem realtime_notification_gating :
    (∀ vm pn, handleRealtimeEvent true vm pn = ⟨[]⟩) ∧
    (∀ vm pn, handleRealtimeEvent false vm pn = ⟨[loadFilter vm pn]⟩) ∧
    (∀ vm pn, (handleRealtimeEvent false vm pn).reloads.length = 1) ∧
    (∀ pn, pn ≠ "" → loadFilter ViewMode.personal pn = some pn) ∧
    (∀ pn, loadFilter ViewMode.all pn = none) := by
  refine ⟨fun vm pn => rfl, fun vm pn => rfl, fun vm pn => rfl, ?_, ?_⟩
  · intro pn hpn
    simp [loadFilter, hpn]
  · intro pn
    simp [loadFilter]

/-- Witness for C7's filter clause at a concrete name. -/
theorem realtime_notification_gating_witness :
    loadFilter ViewMode.personal "Alice" = some "Alice" :=
  realtime_notification_gating.2.2.2.1 "Alice" (by decide)

/-- C8 (confirmed): `scheduleSave` always restarts the countdown at the
full configured delay (5 s countdown, 5000 ms timer), whatever the
scheduler was doing — in particular an already-running countdown is
cancelled and restarted in full, never continued; and a release that
commits an active drag routes its scheduler through exactly this
`scheduleSave`. -/
theorem scheduleSave_restarts_full_delay :
    (∀ sch : Scheduler, (scheduleSave sch).saveCountdown = some 5 ∧
      (scheduleSave sch).saveTimer = some 5000 ∧
      (scheduleSave sch).countdownRunning = true) ∧
    (∀ (pn : String) (ss : List CalendarEvent) (s : EngineState)
        (ds de : DragPosition), s.isDragging = true →
      s.dragStart = some ds → s.dragEnd = some de →
      (handleMouseUp pn ss s).sched = scheduleSave s.sched) := by
  constructor
  · intro sch
    exact ⟨rfl, rfl, rfl⟩
  · intro pn ss s ds de h1 h2 h3
    rw [handleMouseUp_active h1 h2 h3]

/-- Witness for C8: a countdown already ticked down twice restarts at the
full delay, and a concrete active-drag release resets the scheduler. -/
theorem scheduleSave_restarts_full_delay_witness :
    (scheduleSave
        (tickCountdown (tickCountdown (scheduleSave Scheduler.init)))).saveCountdown =
      some 5 ∧
    (handleMouseUp "Alice" []
        (handleMouseDown "Alice" 0 20 EngineState.init)).sched =
      scheduleSave (handleMouseDown "Alice" 0 20 EngineState.init).sched :=
  ⟨(scheduleSave_restarts_full_delay.1
      (tickCountdown (tickCountdown (scheduleSave Scheduler.init)))).1,
    scheduleSave_restarts_full_delay.2 "Alice" []
      (handleMouseDown "Alice" 0 20 EngineState.init) ⟨0, 20⟩ ⟨0, 20⟩
      (by decide) (by decide) (by decide)⟩

/-- C9 (confirmed): pressing a cell that shows no reservation of the
acting player (with a valid player name) and releasing immediately appends
exactly one new reservation to `toCreate` — at that cell, with duration 3,
owned by the acting player, under a fresh provisional id — and leaves
`toDelete` unchanged. -/
theorem singleClick_creates_one (pn : String) (ss : List CalendarEvent)
    (s : EngineState) (d h : Int)
    (hname : ¬(jsTrim pn).length < 3)
    (hfree : ∀ e ∈ displayedEvents ss s.pending,
      ¬(e.day = d ∧ e.startHour = h ∧ e.player_name = pn)) :
    (handleMouseUp pn ss (handleMouseDown pn d h s)).pending.toCreate =
      s.pending.toCreate ++ [newEvent pn s.clock d h] ∧
    (handleMouseUp pn ss (handleMouseDown pn d h s)).pending.toDelete =
      s.pending.toDelete ∧
    (newEvent pn s.clock d h).day = d ∧
    (newEvent pn s.clock d h).startHour = h ∧
    (newEvent pn s.clock d h).duration = 3 ∧
    (newEvent pn s.clock d h).player_name = pn ∧
    (newEvent pn s.clock d h).id.isTemp = true := by
  have hdown : handleMouseDown pn d h s =
      { s with
        isDragging := true
        dragStart := some ⟨d, h⟩
        dragEnd := some ⟨d, h⟩ } := by
    unfold handleMouseDown
    rw [if_neg hname]
  have hfind : (displayedEvents ss s.pending).find?
      (isStartMatch pn ⟨d, h⟩) = none := by
    rw [List.find?_eq_none]
    intro e he
    simp only [isStartMatch, decide_eq_true_eq]
    exact hfree e he
  have hup : handleMouseUp pn ss (handleMouseDown pn d h s) =
      ⟨false, none, none,
        releasePending pn ss s.pending s.clock ⟨d, h⟩ ⟨d, h⟩,
        scheduleSave s.sched, s.clock + 1⟩ := by
    rw [hdown]
    exact handleMouseUp_active rfl rfl rfl
  rw [hup, releasePending_click_create hfind ⟨rfl, rfl⟩]
  exact ⟨rfl, rfl, rfl, rfl, rfl, rfl, rfl⟩

/-- Witness for C9: Scenario A at cell `(0, 20)` (day 0, hour 10). -/
theorem singleClick_creates_one_witness :
    (handleMouseUp "Alice" []
        (handleMouseDown "Alice" 0 20 EngineState.init)).pending.toCreate =
      [newEvent "Alice" 0 0 20] ∧
    (newEvent "Alice" 0 0 20).duration = 3 ∧
    (newEvent "Alice" 0 0 20).player_name = "Alice" :=
  ⟨(singleClick_creates_one "Alice" [] EngineState.init 0 20 (by decide)
      (by decide)).1,
    (singleClick_creates_one "Alice" [] EngineState.init 0 20 (by decide)
      (by decide)).2.2.2.2.1,
    (singleClick_creates_one "Alice" [] EngineState.init 0 20 (by decide)
      (by decide)).2.2.2.2.2.1⟩

/-- C1 (counterexample): a provisional reservation created by one click and
deleted by the next — never persisted in between — has its id appended to
`toDelete` (as well as being removed from `toCreate`), contrary to the
claim that it is removed from `toCreate` *rather than* added to
`toDelete`.  The final state is reachable by press/release events alone. -/
theorem provisional_delete_enters_toDelete :
    newEvent "Alice" 0 0 20 ∈ demoS1.pending.toCreate ∧
    (newEvent "Alice" 0 0 20).id.isTemp = true ∧
    EventId.temp 0 0 20 ∈ demoS2.pending.toDelete ∧
    demoS2.pending.toCreate = [] ∧
    Reachable "Alice" [] demoS2 :=
  ⟨by decide, by decide, by decide, by decide, demoS2_reachable⟩

/-- C1 (amended): for every state reachable by press/enter/release/cancel
events over store-issued canonical sessions, an id present in `toDelete` is
never simultaneously present in `toCreate`; however, when a provisional
(never-persisted) reservation is deleted, it is removed from `toCreate`
*and* its id is appended to `toDelete` (a no-op delete is later issued to
the store), rather than being removed from `toCreate` only. -/
theorem pending_disjoint_and_provisional_delete :
    (∀ (pn : String) (ss : List CalendarEvent) (s : EngineState),
      GoodSessions ss → Reachable pn ss s →
      ∀ id ∈ s.pending.toDelete, id ∉ idsOf s.pending.toCreate) ∧
    (∀ (pn : String) (ss : List CalendarEvent) (pc : PendingChanges)
        (now : Nat) (ds : DragPosition) (ev : CalendarEvent),
      (displayedEvents ss pc).find? (isStartMatch pn ds) = some ev →
      releasePending pn ss pc now ds ds =
        ⟨pc.toCreate.filter fun e => decide (e.id ≠ ev.id),
          pc.toDelete ++ [ev.id]⟩) := by
  constructor
  · intro pn ss s hss hr
    exact (inv_reachable hss hr).disj
  · intro pn ss pc now ds ev hfind
    exact releasePending_click_delete hfind ⟨rfl, rfl⟩

/-- Witness for the amended C1 at the concrete two-click trace. -/
theorem pending_disjoint_witness :
    EventId.temp 0 0 20 ∉ idsOf demoS2.pending.toCreate :=
  pending_disjoint_and_provisional_delete.1 "Alice" [] demoS2
    goodSessions_nil demoS2_reachable (EventId.temp 0 0 20) (by decide)

/-- C10 (confirmed): in every state reachable by pointer events over
store-issued canonical sessions, `toDelete` contains no duplicate id. -/
theorem toDelete_nodup_of_reachable (pn : String)
    (ss : List CalendarEvent) (s : EngineState) (hss : GoodSessions ss)
    (hr : Reachable pn ss s) : s.pending.toDelete.Nodup :=
  (inv_reachable hss hr).ndDelete

/-- Witness for C10 at the concrete two-click trace (whose `toDelete` is
the non-empty list holding the deleted provisional id). -/
theorem toDelete_nodup_witness : demoS2.pending.toDelete.Nodup :=
  toDelete_nodup_of_reachable "Alice" [] demoS2 goodSessions_nil
    demoS2_reachable

/-- C6 (counterexample): the pointer leaving the surface is wired to the
release handler (`onMouseLeave={handleMouseUp}`), so a cancel arriving
during an active drag does modify `PendingChanges` (it queues the create)
and schedules a save, contrary to the claim. -/
theorem cancel_modifies_pending :
    (handleMouseDown "Alice" 0 20 EngineState.init).isDragging = true ∧
    (handleMouseUp "Alice" []
        (handleMouseDown "Alice" 0 20 EngineState.init)).pending ≠
      (handleMouseDown "Alice" 0 20 EngineState.init).pending ∧
    (handleMouseUp "Alice" []
        (handleMouseDown "Alice" 0 20 EngineState.init)).pending.toCreate =
      [newEvent "Alice" 0 0 20] ∧
    (handleMouseUp "Alice" []
        (handleMouseDown "Alice" 0 20 EngineState.init)).sched.saveTimer =
      some 5000 ∧
    (handleMouseDown "Alice" 0 20 EngineState.init).sched.saveTimer =
      none := by
  refine ⟨by decide, by decide, by decide, by decide, by decide⟩

/-- C6 (amended): the pointer-leave handler is the release handler.  It
always discards anchor and cursor and clears `active`; it leaves
`PendingChanges` and the scheduler untouched exactly when no drag is fully
active; with an active drag it commits the selection like a release —
updating `PendingChanges` through the release logic and scheduling a
save. -/
theorem mouseLeave_commits_active_drag :
    ∀ (pn : String) (ss : List CalendarEvent) (s : EngineState),
      ((handleMouseUp pn ss s).isDragging = false ∧
        (handleMouseUp pn ss s).dragStart = none ∧
        (handleMouseUp pn ss s).dragEnd = none) ∧
      (s.isDragging = false ∨ s.dragStart = none ∨ s.dragEnd = none →
        (handleMouseUp pn ss s).pending = s.pending ∧
        (handleMouseUp pn ss s).sched = s.sched) ∧
      (∀ ds de, s.isDragging = true → s.dragStart = some ds →
        s.dragEnd = some de →
        (handleMouseUp pn ss s).pending =
          releasePending pn ss s.pending s.clock ds de ∧
        (handleMouseUp pn ss s).sched = scheduleSave s.sched) := by
  intro pn ss s
  refine ⟨?_, ?_, ?_⟩
  · rcases s with ⟨drag, dst, dnd, pc, sch, c⟩
    cases drag with
    | false => exact ⟨rfl, rfl, rfl⟩
    | true =>
        cases dst with
        | none => exact ⟨rfl, rfl, rfl⟩
        | some ds =>
            cases dnd with
            | none => exact ⟨rfl, rfl, rfl⟩
            | some de => exact ⟨rfl, rfl, rfl⟩
  · intro h
    rw [handleMouseUp_inactive h]
    exact ⟨rfl, rfl⟩
  · intro ds de h1 h2 h3
    rw [handleMouseUp_active h1 h2 h3]
    exact ⟨rfl, rfl⟩

/-- Witness for the amended C6: a leave with no active drag leaves the
accumulator alone; a leave mid-drag routes through the release logic. -/
theorem mouseLeave_commits_active_drag_witness :
    (handleMouseUp "Alice" [] EngineState.init).pending =
      EngineState.init.pending ∧
    (handleMouseUp "Alice" []
        (handleMouseDown "Alice" 0 20 EngineState.init)).sched =
      scheduleSave (handleMouseDown "Alice" 0 20 EngineState.init).sched :=
  ⟨((mouseLeave_commits_active_drag "Alice" [] EngineState.init).2.1
      (Or.inl rfl)).1,
    ((mouseLeave_commits_active_drag "Alice" []
        (handleMouseDown "Alice" 0 20 EngineState.init)).2.2 ⟨0, 20⟩ ⟨0, 20⟩
      (by decide) (by decide) (by decide)).2⟩

/-! ## Helpers for the delete-mode and create-mode characterizations -/

theorem ids_filter_not_mem {tc : List CalendarEvent} {bad : List EventId}
    {id : EventId} (h : id ∈ bad) :
    id ∉ idsOf (tc.filter fun e => decide (e.id ∉ bad)) := by
  intro hmem
  rcases mem_idsOf.mp hmem with ⟨e, he, rfl⟩
  rw [List.mem_filter, decide_eq_true_eq] at he
  exact he.2 h

theorem ids_filter_ne_not_mem {tc : List CalendarEvent}
    {ev : CalendarEvent} :
    ev.id ∉ idsOf (tc.filter fun e => decide (e.id ≠ ev.id)) := by
  intro hmem
  rcases mem_idsOf.mp hmem with ⟨e, he, heq⟩
  rw [List.mem_filter, decide_eq_true_eq] at he
  exact he.2 heq

/-- An id pending deletion and absent from the pending creations never
shows in the displayed view. -/
theorem not_mem_displayed_ids {ss tc : List CalendarEvent}
    {td : List EventId} {id : EventId} (hdel : id ∈ td)
    (hcre : id ∉ idsOf tc) :
    id ∉ idsOf (displayedEvents ss ⟨tc, td⟩) := by
  intro hmem
  rw [displayedEvents_eq_spec] at hmem
  unfold displayedViewSpec at hmem
  rw [idsOf_append, List.mem_append] at hmem
  rcases hmem with hs | hc
  · rcases mem_idsOf.mp hs with ⟨e, he, rfl⟩
    rw [List.mem_filter, decide_eq_true_eq] at he
    exact he.2 hdel
  · exact hcre hc

theorem rectEvents_cells_nodup (pn : String) (now : Nat)
    (d0 d1 h0 h1 : Int) :
    ((rectEvents pn now d0 d1 h0 h1).map
      fun e => (e.day, e.startHour)).Nodup := by
  have hrw : (rectEvents pn now d0 d1 h0 h1).map
      (fun e => (e.day, e.startHour))
      = (intRange d0 d1).flatMap fun d =>
          (intRange h0 h1).map fun h => (d, h) := by
    simp only [rectEvents, List.map_flatMap, List.map_map]
    rfl
  rw [hrw, List.nodup_flatMap]
  constructor
  · intro d _
    refine List.Nodup.map ?_ (intRange_nodup _ _)
    intro a b hab
    simpa using hab
  · refine List.Pairwise.imp ?_ (intRange_nodup d0 d1)
    intro a b hab x hxa hxb
    simp only [List.mem_map] at hxa hxb
    rcases hxa with ⟨h1, _, rfl⟩
    rcases hxb with ⟨h2, _, heq⟩
    simp only [Prod.mk.injEq] at heq
    exact hab heq.1.symm

theorem rectEvents_cells_mem {pn : String} {now : Nat}
    {d0 d1 h0 h1 d h : Int} :
    (d, h) ∈ (rectEvents pn now d0 d1 h0 h1).map
        (fun e => (e.day, e.startHour)) ↔
      (d0 ≤ d ∧ d ≤ d1 ∧ h0 ≤ h ∧ h ≤ h1) := by
  constructor
  · intro hm
    rw [List.mem_map] at hm
    rcases hm with ⟨e, he, hcell⟩
    rcases mem_rectEvents.mp he with ⟨d', h', hd', hh', rfl⟩
    simp only [newEvent, Prod.mk.injEq] at hcell
    obtain ⟨rfl, rfl⟩ := hcell
    exact ⟨hd'.1, hd'.2, hh'.1, hh'.2⟩
  · rintro ⟨h1, h2, h3, h4⟩
    rw [List.mem_map]
    exact ⟨newEvent pn now d h,
      mem_rectEvents.mpr ⟨d, h, ⟨h1, h2⟩, ⟨h3, h4⟩, rfl⟩, rfl⟩

/-- C5 (counterexample): with a provisional reservation of the actor
already displayed at cell `(0, 21)` (hour 10.5), a drag from `(0, 20)` to
`(0, 22)` resolves to create mode and synthesizes a reservation for every
cell of the rectangle — including `(0, 21)`, duplicating the displayed
one, contrary to the claimed duplicate exception. -/
theorem createMode_creates_duplicate_cell :
    (∃ e ∈ displayedEvents []
        (handleMouseUp "Alice" []
          (handleMouseDown "Alice" 0 21 EngineState.init)).pending,
      e.day = 0 ∧ e.startHour = 21 ∧ e.player_name = "Alice") ∧
    ((displayedEvents []
        (handleMouseUp "Alice" []
          (handleMouseEnter 0 22
            (handleMouseDown "Alice" 0 20
              (handleMouseUp "Alice" []
                (handleMouseDown "Alice" 0 21
                  EngineState.init))))).pending).filter
      fun e => decide (e.day = 0 ∧ e.startHour = 21 ∧
        e.player_name = "Alice")).length = 2 := by
  constructor
  · exact ⟨newEvent "Alice" 0 0 21, by decide, by decide, by decide,
      by decide⟩
  · decide

/-- C5 (amended): a release resolving to create mode appends, for every
day in range and every half-hour slot in range, exactly one synthesized
reservation — duration 3, owner the acting identity, provisional id —
with no duplicate check against the displayed view: the only duplication
guard is the mode decision at the anchor (a single-cell release on a cell
already hosting the actor's reservation resolves to delete mode instead),
so non-anchor cells can receive duplicates of displayed reservations. -/
theorem createMode_rectangle_characterization :
    ∀ (pn : String) (ss : List CalendarEvent) (pc : PendingChanges)
      (now : Nat) (ds de : DragPosition),
      (displayedEvents ss pc).find? (isStartMatch pn ds) = none →
      (releasePending pn ss pc now ds de =
        ⟨pc.toCreate ++ rectEvents pn now (min ds.day de.day)
            (max ds.day de.day) (min ds.hour de.hour) (max ds.hour de.hour),
          pc.toDelete⟩) ∧
      (∀ e ∈ rectEvents pn now (min ds.day de.day) (max ds.day de.day)
          (min ds.hour de.hour) (max ds.hour de.hour),
        e.duration = 3 ∧ e.player_name = pn ∧
          e.id = EventId.temp now e.day e.startHour) ∧
      ((rectEvents pn now (min ds.day de.day) (max ds.day de.day)
          (min ds.hour de.hour) (max ds.hour de.hour)).map
            fun e => (e.day, e.startHour)).Nodup ∧
      (∀ d h : Int, (d, h) ∈ (rectEvents pn now (min ds.day de.day)
          (max ds.day de.day) (min ds.hour de.hour)
          (max ds.hour de.hour)).map (fun e => (e.day, e.startHour)) ↔
        (min ds.day de.day ≤ d ∧ d ≤ max ds.day de.day ∧
          min ds.hour de.hour ≤ h ∧ h ≤ max ds.hour de.hour)) := by
  intro pn ss pc now ds de hfind
  refine ⟨?_, ?_, rectEvents_cells_nodup pn now _ _ _ _,
    fun d h => rectEvents_cells_mem⟩
  · by_cases hsame : ds.day = de.day ∧ ds.hour = de.hour
    · obtain ⟨hd, hh⟩ := hsame
      rw [releasePending_click_create hfind ⟨hd, hh⟩, ← hd, ← hh,
        min_self, max_self, min_self, max_self, rectEvents_self]
    · exact releasePending_drag_create hfind hsame
  · intro e he
    rcases mem_rectEvents.mp he with ⟨d', h', _, _, rfl⟩
    exact ⟨rfl, rfl, rfl⟩

/-- Witness for the amended C5: Scenario B — dragging from `(0, 20)` to
`(0, 22)` (hours 10 to 11) creates exactly the three half-hour slots. -/
theorem createMode_rectangle_witness :
    (handleMouseUp "Alice" []
        (handleMouseEnter 0 22
          (handleMouseDown "Alice" 0 20 EngineState.init))).pending.toCreate =
      [newEvent "Alice" 0 0 20, newEvent "Alice" 0 0 21,
        newEvent "Alice" 0 0 22] := by
  have h1 := (createMode_rectangle_characterization "Alice" []
    PendingChanges.empty 0 ⟨0, 20⟩ ⟨0, 22⟩ (by decide)).1
  have h2 : handleMouseUp "Alice" []
      (handleMouseEnter 0 22 (handleMouseDown "Alice" 0 20 EngineState.init)) =
      ⟨false, none, none,
        releasePending "Alice" [] PendingChanges.empty 0 ⟨0, 20⟩ ⟨0, 22⟩,
        scheduleSave (handleMouseEnter 0 22
          (handleMouseDown "Alice" 0 20 EngineState.init)).sched, 1⟩ :=
    handleMouseUp_active (by decide) (by decide) (by decide)
  rw [h2]
  show (releasePending "Alice" [] PendingChanges.empty 0
    ⟨0, 20⟩ ⟨0, 22⟩).toCreate = _
  rw [h1]
  decide

/-- C4 (counterexample): two durable reservations of the same owner sit at
the anchor cell; a single-cell release in delete mode queues only the
first (`events.find`), not every owned in-rectangle reservation as
claimed. -/
theorem deleteMode_click_misses_duplicate :
    (⟨EventId.durable 2, 0, 20, 3, "y", "Ali"⟩ : CalendarEvent) ∈
      displayedEvents
        [⟨EventId.durable 1, 0, 20, 3, "x", "Ali"⟩,
          ⟨EventId.durable 2, 0, 20, 3, "y", "Ali"⟩]
        EngineState.init.pending ∧
    (handleMouseUp "Ali"
        [⟨EventId.durable 1, 0, 20, 3, "x", "Ali"⟩,
          ⟨EventId.durable 2, 0, 20, 3, "y", "Ali"⟩]
        (handleMouseDown "Ali" 0 20 EngineState.init)).pending.toDelete =
      [EventId.durable 1] ∧
    EventId.durable 2 ∉
      (handleMouseUp "Ali"
        [⟨EventId.durable 1, 0, 20, 3, "x", "Ali"⟩,
          ⟨EventId.durable 2, 0, 20, 3, "y", "Ali"⟩]
        (handleMouseDown "Ali" 0 20 EngineState.init)).pending.toDelete := by
  refine ⟨by decide, by decide, by decide⟩

/-- C4 (amended): in a proper drag (anchor ≠ cursor) resolving to delete
mode, an id is queued exactly when it was already queued or belongs to a
displayed reservation owned by the acting identity whose `(day, startHour)`
falls inside the rectangle, and every newly queued id (durable or
provisional) is absent from the displayed view afterwards; in a
single-cell release, only the first displayed owned reservation at the
anchor is queued — all owned reservations there only when that cell holds
at most one — and its id is likewise absent afterwards.  Reservations of
other owners are never queued. -/
theorem deleteMode_queue_characterization :
    (∀ (pn : String) (ss : List CalendarEvent) (pc : PendingChanges)
        (now : Nat) (ds de : DragPosition) (ev : CalendarEvent),
      (displayedEvents ss pc).find? (isStartMatch pn ds) = some ev →
      ¬(ds.day = de.day ∧ ds.hour = de.hour) →
      (∀ id, id ∈ (releasePending pn ss pc now ds de).toDelete ↔
        id ∈ pc.toDelete ∨ ∃ e ∈ displayedEvents ss pc,
          (min ds.day de.day ≤ e.day ∧ e.day ≤ max ds.day de.day ∧
            min ds.hour de.hour ≤ e.startHour ∧
            e.startHour ≤ max ds.hour de.hour ∧ e.player_name = pn) ∧
          e.id = id) ∧
      (∀ id, id ∈ idsOf ((displayedEvents ss pc).filter
          (inRectOwned pn (min ds.day de.day) (max ds.day de.day)
            (min ds.hour de.hour) (max ds.hour de.hour))) →
        id ∉ idsOf (displayedEvents ss
          (releasePending pn ss pc now ds de)))) ∧
    (∀ (pn : String) (ss : List CalendarEvent) (pc : PendingChanges)
        (now : Nat) (ds : DragPosition) (ev : CalendarEvent),
      (displayedEvents ss pc).find? (isStartMatch pn ds) = some ev →
      (releasePending pn ss pc now ds ds).toDelete =
        pc.toDelete ++ [ev.id] ∧
      ev ∈ displayedEvents ss pc ∧ ev.day = ds.day ∧
      ev.startHour = ds.hour ∧ ev.player_name = pn ∧
      ev.id ∉ idsOf (displayedEvents ss
        (releasePending pn ss pc now ds ds))) := by
  constructor
  · intro pn ss pc now ds de ev hfind hsame
    rw [releasePending_drag_delete hfind hsame]
    constructor
    · intro id
      rw [List.mem_append, mem_idsOf]
      apply or_congr Iff.rfl
      constructor
      · rintro ⟨e, he, rfl⟩
        rw [List.mem_filter] at he
        refine ⟨e, he.1, ?_, rfl⟩
        have := he.2
        rw [inRectOwned, decide_eq_true_eq] at this
        exact this
      · rintro ⟨e, he, hP, rfl⟩
        refine ⟨e, ?_, rfl⟩
        rw [List.mem_filter]
        exact ⟨he, by rw [inRectOwned, decide_eq_true_eq]; exact hP⟩
    · intro id hid
      exact not_mem_displayed_ids (List.mem_append.mpr (Or.inr hid))
        (ids_filter_not_mem hid)
  · intro pn ss pc now ds ev hfind
    have heq := @releasePending_click_delete pn ss pc now ds ds ev hfind
      ⟨rfl, rfl⟩
    have hev : ev ∈ displayedEvents ss pc :=
      List.mem_of_find?_eq_some hfind
    have hprops := List.find?_some hfind
    rw [isStartMatch, decide_eq_true_eq] at hprops
    refine ⟨by rw [heq], hev, hprops.1, hprops.2.1, hprops.2.2, ?_⟩
    rw [heq]
    exact not_mem_displayed_ids
      (List.mem_append.mpr (Or.inr (List.mem_singleton.mpr rfl)))
      ids_filter_ne_not_mem

/-- Witness for the amended C4: Scenario C — Alice's durable reservation
at `(0, 20)` is queued by a click-release and vanishes from the displayed
view. -/
theorem deleteMode_queue_witness :
    (releasePending "Alice" [⟨EventId.durable 1, 0, 20, 3, "s", "Alice"⟩]
        PendingChanges.empty 0 ⟨0, 20⟩ ⟨0, 20⟩).toDelete =
      [EventId.durable 1] ∧
    EventId.durable 1 ∉ idsOf (displayedEvents
      [⟨EventId.durable 1, 0, 20, 3, "s", "Alice"⟩]
      (releasePending "Alice" [⟨EventId.durable 1, 0, 20, 3, "s", "Alice"⟩]
        PendingChanges.empty 0 ⟨0, 20⟩ ⟨0, 20⟩)) := by
  have h := deleteMode_queue_characterization.2 "Alice"
    [⟨EventId.durable 1, 0, 20, 3, "s", "Alice"⟩] PendingChanges.empty 0
    ⟨0, 20⟩ ⟨EventId.durable 1, 0, 20, 3, "s", "Alice"⟩ (by decide)
  exact ⟨h.1, h.2.2.2.2.2⟩

end AgendaAssist
